import Mathlib

/-!
Shallow embedding of the nba-prop-pipeline core (src/refresh.py).

Text is modelled as `List Char`; numeric quote/feature/prediction values
(Python floats that in practice are short decimals such as 25.5) are
modelled as rationals `ℚ`, so all arithmetic in the scoring stage is exact.
Fallible stages (the per-market predictor call in `main`) are modelled in
the `Except` monad.
-/

/-- Is `c` an ASCII letter, i.e. matched by the regex class `[A-Za-z]`
used in `clean_name` (src/refresh.py line 35)? -/
def isAsciiLetter (c : Char) : Bool :=
  (65 ≤ c.toNat && c.toNat ≤ 90) || (97 ≤ c.toNat && c.toNat ≤ 122)

/-- Python's whitespace class `\s` for `str` patterns (also the character
set stripped by `str.strip()`): tab through carriage return, space, the
file/group/record/unit separators, NEL, NBSP, and the Unicode space
separators. Used by the regex `[^A-Za-z\s]` of `clean_name` (line 35),
by `.strip()` (line 36) and by the home-flag regex `\s@\s` (line 164). -/
def pyIsSpace (c : Char) : Bool :=
  let n := c.toNat
  (9 ≤ n && n ≤ 13) || n = 32 || (28 ≤ n && n ≤ 31) || n = 133 || n = 160 ||
  n = 5760 || (8192 ≤ n && n ≤ 8202) || n = 8232 || n = 8233 || n = 8239 ||
  n = 8287 || n = 12288

/-- A character survives the substitution `re.sub(r"[^A-Za-z\s]", "", name)`
(src/refresh.py line 35) iff it is an ASCII letter or whitespace. -/
def keepChar (c : Char) : Bool := isAsciiLetter c || pyIsSpace c

/-- Python `str.lower()` (src/refresh.py line 36). In `clean_name` it is
applied after the filter `[^A-Za-z\s]`, so its argument holds only ASCII
letters and whitespace, where full Unicode lowercasing coincides with
ASCII lowercasing. -/
def pyToLower (c : Char) : Char :=
  if 65 ≤ c.toNat ∧ c.toNat ≤ 90 then Char.ofNat (c.toNat + 32) else c

/-- Python `str.upper()` as used on the market-key fragment
(src/refresh.py line 187); the fragments ("points", "rebounds",
"assists") are pure ASCII. -/
def pyToUpper (c : Char) : Char :=
  if 97 ≤ c.toNat ∧ c.toNat ≤ 122 then Char.ofNat (c.toNat - 32) else c

/-- Worker for the global substitution `re.sub(r"\([^)]*\)", "", name)`.
The first argument is `none` while scanning outside any candidate match,
and `some pend` after an opening `'('` whose closing `')'` has not yet
been seen; `pend` holds, in reverse, the `'('` and the characters consumed
after it, so they can be restored verbatim if the string ends with no
`')'` (an unclosed `'('` is not matched by the regex and is kept, and
everything after it contains no `')'`, so no later match exists in it). -/
def spAux : Option (List Char) → List Char → List Char
  | none, [] => []
  | some pend, [] => pend.reverse
  | none, c :: t => if c = '(' then spAux (some [c]) t else c :: spAux none t
  | some pend, c :: t => if c = ')' then spAux none t else spAux (some (c :: pend)) t

/-- Global substitution `re.sub(r"\([^)]*\)", "", name)` (src/refresh.py
line 34): scanning left to right, each `'('` that has a later `')'` is
deleted together with everything up to and including that first `')'`
(the greedy class `[^)]*` cannot cross a `')'`); a `'('` with no closing
`')'` does not match and is kept; scanning resumes after each deleted
match. -/
def stripParens (l : List Char) : List Char := spAux none l

/-- Python `str.strip()` (src/refresh.py line 36): drop leading and
trailing whitespace. -/
def pyStrip (l : List Char) : List Char :=
  ((l.dropWhile pyIsSpace).reverse.dropWhile pyIsSpace).reverse

/-- Model of `clean_name` (src/refresh.py lines 27-36): strip parenthesized
substrings, keep only ASCII letters and whitespace, lower-case, strip. -/
def clean_name (s : List Char) : List Char :=
  pyStrip (List.map pyToLower (List.filter keepChar (stripParens s)))

example : clean_name "LeBron James (LAL)".toList = "lebron james".toList := by decide
example : clean_name "J. Harden".toList = "j harden".toList := by decide
example : clean_name "D'Angelo Russell!".toList = "dangelo russell".toList := by decide

/-- A live market quote (one row of the frame built by `fetch_live_props`,
src/refresh.py lines 100-107/126-136): player name, line, price, game
label, market key (`"player_points"`, `"player_rebounds"` or
`"player_assists"`). -/
structure Quote where
  player : List Char
  line : ℚ
  price : ℚ
  game : List Char
  market : List Char
deriving DecidableEq

/-- A quote after `add_features` (src/refresh.py lines 139-166): augmented
with `season_pts`, `rolling5` and the `home` flag (an int column used as a
numeric feature). -/
structure FeatRow extends Quote where
  season_pts : ℚ
  rolling5 : ℚ
  home : ℚ
deriving DecidableEq

/-- A scored row (columns added in the per-market loop of `main`,
src/refresh.py lines 184-187): prediction `μ`, `edge`, integer `conf`,
and display label `prop`. -/
structure Scored extends FeatRow where
  μ : ℚ
  edge : ℚ
  conf : ℤ
  prop : List Char
deriving DecidableEq

/-- The season-average lookup (src/refresh.py lines 152-155): group the
season log rows by cleaned player name and take the mean of `PTS`;
`none` when the cleaned key has no log row (pandas `.map` yields NaN). -/
def seasonMean (logs : List (List Char × ℚ)) (key : List Char) : Option ℚ :=
  let vs := (logs.filter (fun p => decide (clean_name p.1 = key))).map Prod.snd
  if vs.length = 0 then none else some (vs.sum / (vs.length : ℚ))

/-- The home-flag test `df["game"].str.contains(r"\s@\s")` (src/refresh.py
line 164): does the label contain whitespace, `'@'`, whitespace anywhere? -/
def containsHomePat : List Char → Bool
  | a :: b :: c :: rest =>
      (pyIsSpace a && (b == '@') && pyIsSpace c) || containsHomePat (b :: c :: rest)
  | _ => false

/-- Enrichment of a single quote inside `add_features` (src/refresh.py
lines 139-166): season average by cleaned name with the quote's own line
as fallback; left-merge of the rolling-5 table on the cleaned name (one
output row per matching rolling row, one row with the season fallback
when there is no match); home flag from the game label. -/
def enrichQuote (logs last5 : List (List Char × ℚ)) (q : Quote) : List FeatRow :=
  let key := clean_name q.player
  let season := (seasonMean logs key).getD q.line
  let home : ℚ := if containsHomePat q.game then 1 else 0
  let ms := (last5.filter (fun p => decide (clean_name p.1 = key))).map Prod.snd
  if ms = [] then [{ toQuote := q, season_pts := season, rolling5 := season, home := home }]
  else ms.map (fun v => { toQuote := q, season_pts := season, rolling5 := v, home := home })

/-- Model of `add_features` (src/refresh.py lines 139-166). The module-level tables
`TRAIN_LOGS` (rows `(PLAYER_NAME, PTS)`, one per game) and `LAST5` (rows
`(PLAYER_NAME, rolling5_pts)`) are passed explicitly as `logs` and
`last5`. Row order of the quote frame is preserved. -/
def add_features (logs last5 : List (List Char × ℚ)) (quotes : List Quote) : List FeatRow :=
  quotes.flatMap (enrichQuote logs last5)

/-- The feature columns selected by `market_df[feats]` (src/refresh.py
line 184); the model bundles supply the order. -/
inductive Feat
  | season_pts
  | rolling5
  | home
deriving DecidableEq

/-- Column selection for one row of `market_df[feats]`. -/
def featVal (r : FeatRow) : Feat → ℚ
  | .season_pts => r.season_pts
  | .rolling5 => r.rolling5
  | .home => r.home

/-- Banker's rounding (round half to even), the semantics of the pandas
`.round()` on src/refresh.py line 186 (numpy `rint`), which Python's
built-in `round` shares. -/
def roundHalfEven (q : ℚ) : ℤ :=
  let f := ⌊q⌋
  if q - f < 1/2 then f
  else if 1/2 < q - f then f + 1
  else if f % 2 = 0 then f else f + 1

/-- Pandas `Series.clip(lo, hi)`. -/
def clip (lo hi x : ℚ) : ℚ := min hi (max lo x)

/-- The confidence column (src/refresh.py line 186):
`(edge.abs() * 10 + 50).clip(0, 100).round().astype(int)`; the value is
integral after `.round()`, so `astype(int)` is the identity on it. -/
def confOf (edge : ℚ) : ℤ := roundHalfEven (clip 0 100 (|edge| * 10 + 50))

def digitChar (n : ℕ) : Char := Char.ofNat (48 + n)

/-- Decimal digits of the fraction `r / d` by long division; the fuel (set
to `d` by the caller) exceeds the number of digits of any terminating
expansion, and the expansion of every value in this model's domain
terminates. -/
def fracDigits : ℕ → ℕ → ℕ → List Char
  | _, 0, _ => []
  | 0, _, _ => []
  | fuel + 1, r, d => digitChar (r * 10 / d) :: fracDigits fuel (r * 10 % d) d

/-- Python `str()` of a float holding a short terminating decimal (the
`astype(str)` on the line column, src/refresh.py line 187): optional
sign, integer part, `'.'`, and the fractional digits — at least one, so
`25.5` renders as `"25.5"` and `7` as `"7.0"`. Binary-float
shortest-repr subtleties are outside the model's domain. -/
def decimalStr (q : ℚ) : List Char :=
  let sign := if q < 0 then ['-'] else []
  let num := q.num.natAbs
  let den := q.den
  let fr := fracDigits den (num % den) den
  sign ++ Nat.toDigits 10 (num / den) ++ ['.'] ++ (if fr = [] then ['0'] else fr)

/-- Model of `market.split('_')[1].upper()` (src/refresh.py line 187). Every market
key of the loop contains exactly one `'_'`; `getD` supplies a default
only outside that domain (where Python would raise IndexError). -/
def statLabel (mk : List Char) : List Char :=
  ((mk.splitOn '_').getD 1 []).map pyToUpper

/-- The columns written by the scoring loop for one row (src/refresh.py
lines 184-187): `μ` from the predictor, `edge = μ - line`,
`conf` from `edge`, and `prop = f"{market.split('_')[1].upper()} O "`
plus the line rendered as a string. -/
def mkScored (mk : List Char) (r : FeatRow) (μ : ℚ) : Scored :=
  { toFeatRow := r
    μ := μ
    edge := μ - r.line
    conf := confOf (μ - r.line)
    prop := statLabel mk ++ " O ".toList ++ decimalStr r.line }

/-- An externally supplied model's `predict` (a fitted scikit-learn
regressor loaded from joblib): a batch of feature vectors to a batch of
predictions, or an error when it raises. -/
abbrev Predictor := List (List ℚ) → Except Unit (List ℚ)

/-- One iteration of the per-market loop in `main` (src/refresh.py lines
181-189): slice the frame to the market; when the slice is nonempty call
`model.predict` on the feature matrix (a raised exception propagates —
there is no handler in `main`) and add the scored columns; an empty
slice contributes no rows and the predictor is not called. The length
check models the pandas column-assignment requirement. -/
def scoreMarket (mk : List Char) (model : Predictor) (feats : List Feat)
    (df : List FeatRow) : Except Unit (List Scored) :=
  let mdf := df.filter (fun r => decide (r.market = mk))
  if mdf = [] then .ok []
  else
    match model (mdf.map (fun r => feats.map (featVal r))) with
    | .error e => .error e
    | .ok μs =>
        if μs.length = mdf.length then
          .ok ((mdf.zip μs).map (fun rv => mkScored mk rv.1 rv.2))
        else .error ()

/-- Stable ascending insertion by edge: an element is placed after every
element with edge less than or equal to its own. -/
def insertAsc (x : Scored) : List Scored → List Scored
  | [] => [x]
  | y :: ys => if y.edge ≤ x.edge then y :: insertAsc x ys else x :: y :: ys

def sortFold : List Scored → List Scored → List Scored
  | acc, [] => acc
  | acc, x :: xs => sortFold (insertAsc x acc) xs

/-- Stable ascending sort of the rows by the edge column. -/
def stableSortAsc (l : List Scored) : List Scored := sortFold [] l

/-- The ranking stage `sort_values("edge", ascending=False).head(20)`
(src/refresh.py line 196): pandas `nargsort` computes the ascending
argsort of the edge column and, for `ascending=False`, reverses that
permutation (pandas/core/sorting.py), then the first 20 rows are kept.
The ascending argsort is modelled as a stable sort, which matches the
default numpy kind on the array sizes the proofs exercise (numpy runs a
stable insertion sort below its small-array cutoff). -/
def rankStage (rows : List Scored) : List Scored :=
  ((stableSortAsc rows).reverse).take 20

/-- Model of `main` (src/refresh.py lines 169-203) downstream of I/O:
`fetch_live_props` is an external collaborator supplying `quotes`, the
module-level tables and the three model bundles are passed explicitly.
The three markets are scored in source order; an exception from any
predictor propagates out of `main` unhandled; otherwise the per-market
results are concatenated, sorted and truncated. When every market slice
is empty the source logs and returns without output, which this model
renders as `.ok []`. -/
def runMain (logs last5 : List (List Char × ℚ))
    (pPts pReb pAst : Predictor) (fPts fReb fAst : List Feat)
    (quotes : List Quote) : Except Unit (List Scored) :=
  let df := add_features logs last5 quotes
  match scoreMarket "player_points".toList pPts fPts df with
  | .error e => .error e
  | .ok s1 =>
    match scoreMarket "player_rebounds".toList pReb fReb df with
    | .error e => .error e
    | .ok s2 =>
      match scoreMarket "player_assists".toList pAst fAst df with
      | .error e => .error e
      | .ok s3 => .ok (rankStage (s1 ++ s2 ++ s3))

example : roundHalfEven (171/2) = 86 := by
  have h : ⌊(171 : ℚ)/2⌋ = 85 := by rw [Int.floor_eq_iff]; norm_num
  rw [roundHalfEven, h]; norm_num
example : statLabel "player_points".toList = "POINTS".toList := by decide

/-! ### Concrete data used by the claim theorems -/

/-- The end-to-end scenario quote: Nikola Jokic points, line 25.5,
game "Lakers @ Nuggets". The price is an opaque passthrough. -/
def jokicQuote : Quote :=
  { player := "Nikola Jokic".toList, line := 51/2, price := -110,
    game := "Lakers @ Nuggets".toList, market := "player_points".toList }

/-- Season log giving season-index["nikola jokic"] = 28.0. -/
def scenarioLogs : List (List Char × ℚ) := [("Nikola Jokic".toList, 28)]

/-- Rolling table giving rolling-index["nikola jokic"] = 30.0. -/
def scenarioLast5 : List (List Char × ℚ) := [("Nikola Jokic".toList, 30)]

/-- The scenario quote after enrichment. -/
def jokicFeatRow : FeatRow :=
  { toQuote := jokicQuote, season_pts := 28, rolling5 := 30, home := 1 }

/-- The feature order of every model bundle: season average, rolling
average, home indicator. -/
def stdFeats : List Feat := [.season_pts, .rolling5, .home]

/-- A predictor returning 29.0 on the feature vector [28.0, 30.0, 1]. -/
def scenarioPredictor : Predictor :=
  fun vs => .ok (vs.map (fun v => if v = [28, 30, 1] then 29 else 0))

/-- A trivially succeeding predictor. -/
def zeroPredictor : Predictor := fun vs => .ok (vs.map (fun _ => 0))

/-- The full pipeline run on the end-to-end scenario. -/
def scenarioRun : Except Unit (List Scored) :=
  runMain scenarioLogs scenarioLast5 scenarioPredictor zeroPredictor zeroPredictor
    stdFeats stdFeats stdFeats [jokicQuote]

/-- The row the pipeline produces for the scenario. -/
def jokicScored : Scored :=
  { toFeatRow := jokicFeatRow, μ := 29, edge := 7/2, conf := 85,
    prop := "POINTS O 25.5".toList }

/-! ### Character-level lemmas for the normalizer -/

theorem charShift_toNat : ∀ n, n < 91 → 65 ≤ n → (Char.ofNat (n + 32)).toNat = n + 32 := by
  decide

theorem parenChar_toNat : ('(' : Char).toNat = 40 := by decide

/-- A character that survives the letters-and-whitespace filter maps under
lowercasing to a character that (a) still survives the filter, (b) is a
fixed point of lowercasing, and (c) is not `'('`. -/
theorem pyToLower_keep {c : Char} (h : keepChar c = true) :
    keepChar (pyToLower c) = true ∧ pyToLower (pyToLower c) = pyToLower c ∧
      pyToLower c ≠ '(' := by
  by_cases hu : 65 ≤ c.toNat ∧ c.toNat ≤ 90
  · have hn : (Char.ofNat (c.toNat + 32)).toNat = c.toNat + 32 :=
      charShift_toNat c.toNat (by omega) hu.1
    have hl : pyToLower c = Char.ofNat (c.toNat + 32) := by
      rw [pyToLower, if_pos hu]
    refine ⟨?_, ?_, ?_⟩
    · rw [hl, keepChar, isAsciiLetter, hn]
      have h97 : 97 ≤ c.toNat + 32 := by omega
      have h122 : c.toNat + 32 ≤ 122 := by omega
      simp [h97, h122]
    · rw [hl, pyToLower, if_neg (by rw [hn]; omega)]
    · intro he
      rw [hl] at he
      have : (Char.ofNat (c.toNat + 32)).toNat = 40 := by rw [he, parenChar_toNat]
      omega
  · have hl : pyToLower c = c := by rw [pyToLower, if_neg hu]
    refine ⟨by rw [hl]; exact h, by rw [hl, hl], ?_⟩
    intro he
    rw [hl] at he
    subst he
    exact absurd h (by decide)

/-! ### Strip/dropWhile lemmas -/

theorem exists_dropWhile_append (p : Char → Bool) :
    ∀ l : List Char, ∃ s, l = s ++ List.dropWhile p l := by
  intro l
  induction l with
  | nil => exact ⟨[], rfl⟩
  | cons c t ih =>
    by_cases hp : p c = true
    · obtain ⟨s, hs⟩ := ih
      exact ⟨c :: s, by rw [List.dropWhile_cons, if_pos hp]; simpa using hs⟩
    · exact ⟨[], by rw [List.dropWhile_cons, if_neg hp]; simp⟩

theorem dropWhile_head_false (p : Char → Bool) :
    ∀ {l c t}, List.dropWhile p l = c :: t → p c = false := by
  intro l
  induction l with
  | nil => intro c t h; simp at h
  | cons a l ih =>
    intro c t h
    by_cases hp : p a = true
    · rw [List.dropWhile_cons, if_pos hp] at h
      exact ih h
    · rw [List.dropWhile_cons, if_neg hp] at h
      cases h
      simpa using hp

theorem dropWhile_dropWhile_same (p : Char → Bool) (l : List Char) :
    List.dropWhile p (List.dropWhile p l) = List.dropWhile p l := by
  cases h : List.dropWhile p l with
  | nil => simp
  | cons c t =>
    have hc := dropWhile_head_false p h
    rw [List.dropWhile_cons, if_neg (by simp [hc])]

theorem pyStrip_idem (l : List Char) : pyStrip (pyStrip l) = pyStrip l := by
  set p := pyIsSpace with hp
  set x := List.dropWhile p l with hx
  set z := (List.dropWhile p x.reverse).reverse with hz
  have hzl : pyStrip l = z := rfl
  have hA : List.dropWhile p z = z := by
    cases hc : z with
    | nil => simp
    | cons c t =>
      obtain ⟨s, hs⟩ := exists_dropWhile_append p x.reverse
      have hx2 : x = z ++ s.reverse := by
        have h2 := congrArg List.reverse hs
        rw [List.reverse_append, List.reverse_reverse] at h2
        rw [hz]
        exact h2
      rw [hc] at hx2
      have hpc : p c = false := by
        refine dropWhile_head_false p (l := l) (t := t ++ s.reverse) ?_
        rw [← hx, hx2]
        simp
      rw [List.dropWhile_cons, if_neg (by simp [hpc])]
  have hB : List.dropWhile p z.reverse = z.reverse := by
    rw [hz, List.reverse_reverse]
    exact dropWhile_dropWhile_same p x.reverse
  rw [hzl]
  show ((List.dropWhile p z).reverse.dropWhile p).reverse = z
  rw [hA, hB, List.reverse_reverse]

theorem mem_of_mem_dropWhile_py (p : Char → Bool) {c : Char} {l : List Char}
    (h : c ∈ List.dropWhile p l) : c ∈ l := by
  obtain ⟨s, hs⟩ := exists_dropWhile_append p l
  rw [hs]
  exact List.mem_append_right s h

theorem mem_of_mem_pyStrip {c : Char} {l : List Char} (h : c ∈ pyStrip l) : c ∈ l := by
  rw [pyStrip, List.mem_reverse] at h
  have h2 := mem_of_mem_dropWhile_py pyIsSpace h
  rw [List.mem_reverse] at h2
  exact mem_of_mem_dropWhile_py pyIsSpace h2

theorem spAux_none_of_no_paren : ∀ {l : List Char}, '(' ∉ l → spAux none l = l := by
  intro l
  induction l with
  | nil => intro _; rfl
  | cons c t ih =>
    intro h
    have hc : ¬ c = '(' := fun he => h (he ▸ List.mem_cons_self c t)
    rw [show spAux none (c :: t) = if c = '(' then spAux (some [c]) t else c :: spAux none t from rfl]
    rw [if_neg hc, ih (fun hm => h (List.mem_cons_of_mem c hm))]

theorem map_eq_self_of_fix {f : Char → Char} :
    ∀ {l : List Char}, (∀ c ∈ l, f c = c) → List.map f l = l := by
  intro l
  induction l with
  | nil => intro _; rfl
  | cons c t ih =>
    intro h
    rw [List.map_cons, h c (List.mem_cons_self c t), ih (fun d hd => h d (List.mem_cons_of_mem c hd))]

/-- Every character of a cleaned name survives the filter, is a fixed
point of lowercasing, and is not `'('`. -/
theorem clean_name_mem {s : List Char} :
    ∀ c ∈ clean_name s, keepChar c = true ∧ pyToLower c = c ∧ c ≠ '(' := by
  intro c hc
  rw [clean_name] at hc
  have h1 := mem_of_mem_pyStrip hc
  rw [List.mem_map] at h1
  obtain ⟨d, hd, hdc⟩ := h1
  rw [List.mem_filter] at hd
  obtain ⟨hk, hkeep, hfix⟩ := pyToLower_keep hd.2
  exact ⟨hdc ▸ hk, by rw [← hdc]; exact hkeep, hdc ▸ hfix⟩

/-- C8: on every input, `clean_name` first removes parenthesized
substrings, then filters to ASCII letters and whitespace, lower-cases and
strips — and on the spec's concrete examples it yields "lebron james"
and "dangelo russell". -/
theorem clean_name_algorithm :
    (∀ s : List Char, clean_name s =
      pyStrip (List.map pyToLower (List.filter keepChar (stripParens s)))) ∧
    clean_name "LeBron James (LAL)".toList = "lebron james".toList ∧
    clean_name "D'Angelo Russell!".toList = "dangelo russell".toList :=
  ⟨fun _ => rfl, by decide, by decide⟩

/-- C9: the name normalizer is idempotent. -/
theorem clean_name_idempotent (x : List Char) :
    clean_name (clean_name x) = clean_name x := by
  have hmem := clean_name_mem (s := x)
  have h1 : stripParens (clean_name x) = clean_name x := by
    rw [stripParens]
    refine spAux_none_of_no_paren (fun hmemp => ?_)
    exact (hmem '(' hmemp).2.2 rfl
  have h2 : List.filter keepChar (clean_name x) = clean_name x :=
    List.filter_eq_self.mpr (fun c hc => (hmem c hc).1)
  have h3 : List.map pyToLower (clean_name x) = clean_name x :=
    map_eq_self_of_fix (fun c hc => (hmem c hc).2.1)
  calc clean_name (clean_name x)
      = pyStrip (List.map pyToLower (List.filter keepChar (stripParens (clean_name x)))) := rfl
    _ = pyStrip (clean_name x) := by rw [h1, h2, h3]
    _ = clean_name x := by
        rw [show clean_name x =
          pyStrip (List.map pyToLower (List.filter keepChar (stripParens x))) from rfl]
        exact pyStrip_idem _

/-! ### Enrichment lemmas -/

/-- Field-level description of any row that `enrichQuote` emits for a
quote: it carries the quote verbatim, its season average is the lookup
with line fallback, and its rolling average is either the season value
(no rolling match) or one of the matching rolling values. -/
theorem enrichQuote_mem {logs last5 : List (List Char × ℚ)} {q : Quote} {r : FeatRow}
    (h : r ∈ enrichQuote logs last5 q) :
    r.toQuote = q ∧
    r.season_pts = (seasonMean logs (clean_name q.player)).getD q.line ∧
    (r.rolling5 = r.season_pts ∨
      r.rolling5 ∈ (last5.filter
        (fun p => decide (clean_name p.1 = clean_name q.player))).map Prod.snd) := by
  rw [enrichQuote] at h
  split at h
  · rw [List.mem_singleton] at h
    subst h
    exact ⟨rfl, rfl, Or.inl rfl⟩
  · rw [List.mem_map] at h
    obtain ⟨v, hv, hr⟩ := h
    subst hr
    exact ⟨rfl, rfl, Or.inr hv⟩

/-- Rows of `add_features` come from `enrichQuote` on some input quote. -/
theorem add_features_mem {logs last5 : List (List Char × ℚ)} {qs : List Quote} {r : FeatRow}
    (h : r ∈ add_features logs last5 qs) :
    ∃ q ∈ qs, r ∈ enrichQuote logs last5 q := by
  rw [add_features, List.mem_flatMap] at h
  exact h

/-- C6: a quote whose cleaned player name has no season-index entry gets
its own line as season average, for every row it produces. -/
theorem season_fallback_line (logs last5 : List (List Char × ℚ)) (qs : List Quote)
    (r : FeatRow) (hr : r ∈ add_features logs last5 qs)
    (hnone : seasonMean logs (clean_name r.player) = none) :
    r.season_pts = r.line := by
  obtain ⟨q, _, hq⟩ := add_features_mem hr
  obtain ⟨hquote, hseason, _⟩ := enrichQuote_mem hq
  have hplayer : r.player = q.player := by rw [← hquote]
  have hline : r.line = q.line := by rw [← hquote]
  rw [hplayer] at hnone
  rw [hseason, hnone, Option.getD_none, hline]

/-- C7: a quote whose cleaned player name has no rolling-index entry gets
its (already computed) season average as rolling average, for every row
it produces. -/
theorem rolling_fallback_season (logs last5 : List (List Char × ℚ)) (qs : List Quote)
    (r : FeatRow) (hr : r ∈ add_features logs last5 qs)
    (hnone : last5.filter (fun p => decide (clean_name p.1 = clean_name r.player)) = []) :
    r.rolling5 = r.season_pts := by
  obtain ⟨q, _, hq⟩ := add_features_mem hr
  obtain ⟨hquote, _, hroll⟩ := enrichQuote_mem hq
  have hplayer : r.player = q.player := by rw [← hquote]
  rw [hplayer] at hnone
  rcases hroll with h | h
  · exact h
  · rw [hnone] at h
    simp at h

/-! ### Confidence lemmas -/

theorem roundHalfEven_intCast (z : ℤ) : roundHalfEven (z : ℚ) = z := by
  rw [roundHalfEven]
  have hf : ⌊(z : ℚ)⌋ = z := Int.floor_intCast z
  rw [hf]
  rw [if_pos (by rw [sub_self]; norm_num)]

theorem roundHalfEven_bounds {q : ℚ} {lo hi : ℤ} (h1 : (lo : ℚ) ≤ q) (h2 : q ≤ (hi : ℚ)) :
    lo ≤ roundHalfEven q ∧ roundHalfEven q ≤ hi := by
  rw [roundHalfEven]
  have hlo : lo ≤ ⌊q⌋ := Int.le_floor.mpr h1
  have hhi : ⌊q⌋ ≤ hi := by
    have := Int.floor_le_floor h2
    rwa [Int.floor_intCast] at this
  have hfq : (⌊q⌋ : ℚ) ≤ q := Int.floor_le q
  by_cases hb1 : q - ⌊q⌋ < 1/2
  · rw [if_pos hb1]; exact ⟨hlo, hhi⟩
  · have hne : ⌊q⌋ < hi := by
      rcases lt_or_eq_of_le hhi with h | h
      · exact h
      · exfalso
        have : q - (⌊q⌋ : ℚ) ≤ 0 := by
          rw [h]
          linarith
        exact hb1 (by linarith)
    rw [if_neg hb1]
    by_cases hb2 : 1/2 < q - ⌊q⌋
    · rw [if_pos hb2]; exact ⟨by omega, by omega⟩
    · rw [if_neg hb2]
      by_cases hb3 : ⌊q⌋ % 2 = 0
      · rw [if_pos hb3]; exact ⟨hlo, hhi⟩
      · rw [if_neg hb3]; exact ⟨by omega, by omega⟩

theorem clip_conf_bounds (e : ℚ) :
    ((50 : ℤ) : ℚ) ≤ clip 0 100 (|e| * 10 + 50) ∧
      clip 0 100 (|e| * 10 + 50) ≤ ((100 : ℤ) : ℚ) := by
  have ha : (0 : ℚ) ≤ |e| := abs_nonneg e
  have hx : (50 : ℚ) ≤ |e| * 10 + 50 := by nlinarith
  rw [clip, max_eq_right (by linarith)]
  constructor
  · push_cast
    exact le_min (by norm_num) hx
  · push_cast
    exact min_le_left _ _

theorem confOf_bounds (e : ℚ) : 50 ≤ confOf e ∧ confOf e ≤ 100 := by
  obtain ⟨h1, h2⟩ := clip_conf_bounds e
  exact roundHalfEven_bounds h1 h2

theorem confOf_high {e : ℚ} (h : 10 ≤ |e|) : confOf e = 100 := by
  rw [confOf, clip]
  have ha : (0 : ℚ) ≤ |e| := abs_nonneg e
  rw [max_eq_right (by nlinarith), min_eq_left (by nlinarith)]
  have h100 : ((100 : ℤ) : ℚ) = (100 : ℚ) := by norm_num
  rw [← h100, roundHalfEven_intCast]

theorem confOf_zero : confOf 0 = 50 := by
  rw [confOf, clip, abs_zero]
  have h50 : max (0 : ℚ) (0 * 10 + 50) = 50 := by norm_num
  rw [h50, min_eq_right (by norm_num)]
  have h50c : ((50 : ℤ) : ℚ) = (50 : ℚ) := by norm_num
  rw [← h50c, roundHalfEven_intCast]

/-- Every row an `.ok` result of `scoreMarket` contains is `mkScored` of
some enriched row and prediction. -/
theorem scoreMarket_mem {mk : List Char} {model : Predictor} {feats : List Feat}
    {df : List FeatRow} {out : List Scored} {r : Scored}
    (hout : scoreMarket mk model feats df = .ok out) (hr : r ∈ out) :
    ∃ fr μ, r = mkScored mk fr μ := by
  rw [scoreMarket] at hout
  split at hout
  · cases hout
    simp at hr
  · split at hout
    · cases hout
    · split at hout
      · cases hout
        rw [List.mem_map] at hr
        obtain ⟨rv, _, hrv⟩ := hr
        exact ⟨rv.1, rv.2, hrv.symm⟩
      · cases hout

/-- C5: every scored row satisfies edge = μ − line and
conf = round(clip(|edge|·10 + 50, 0, 100)) with banker's rounding; hence
conf = 100 whenever |edge| ≥ 10 and conf = 50 whenever edge = 0. -/
theorem score_edge_conf_formula (mk : List Char) (model : Predictor) (feats : List Feat)
    (df : List FeatRow) (out : List Scored) (r : Scored)
    (hout : scoreMarket mk model feats df = .ok out) (hr : r ∈ out) :
    r.edge = r.μ - r.line ∧
    r.conf = roundHalfEven (clip 0 100 (|r.edge| * 10 + 50)) ∧
    (10 ≤ |r.edge| → r.conf = 100) ∧
    (r.edge = 0 → r.conf = 50) := by
  obtain ⟨fr, μ, hrw⟩ := scoreMarket_mem hout hr
  subst hrw
  refine ⟨rfl, rfl, ?_, ?_⟩
  · intro h
    exact confOf_high h
  · intro h
    show confOf (μ - fr.line) = 50
    have he : μ - fr.line = 0 := h
    rw [he, confOf_zero]

/-- C10: the confidence of every scored row lies in [50, 100] — the lower
clip bound 0 is unreachable because |edge|·10 + 50 is already ≥ 50. -/
theorem conf_at_least_fifty (mk : List Char) (model : Predictor) (feats : List Feat)
    (df : List FeatRow) (out : List Scored) (r : Scored)
    (hout : scoreMarket mk model feats df = .ok out) (hr : r ∈ out) :
    50 ≤ r.conf ∧ r.conf ≤ 100 := by
  obtain ⟨fr, μ, hrw⟩ := scoreMarket_mem hout hr
  subst hrw
  exact confOf_bounds (μ - fr.line)

/-! ### Concrete evaluation of the end-to-end scenario -/

theorem scenario_add_features_eval :
    add_features scenarioLogs scenarioLast5 [jokicQuote] = [jokicFeatRow] := by
  have h1 : clean_name "Nikola Jokic".toList = "nikola jokic".toList := by decide
  simp [add_features, enrichQuote, scenarioLogs, scenarioLast5, jokicQuote, jokicFeatRow,
        seasonMean, h1]
  decide

theorem scenario_conf_eval : confOf ((29 : ℚ) - 51/2) = 85 := by
  have h85 : clip 0 100 (|(29 : ℚ) - 51/2| * 10 + 50) = 85 := by
    rw [clip, abs_of_pos (by norm_num)]
    norm_num
  rw [confOf, h85]
  have h85c : ((85 : ℤ) : ℚ) = (85 : ℚ) := by norm_num
  rw [← h85c, roundHalfEven_intCast]

theorem scenario_decimal_eval : decimalStr (51/2 : ℚ) = "25.5".toList := by
  have hmk : (51/2 : ℚ) = ⟨51, 2, by decide, by decide⟩ := by
    rw [Rat.mk'_eq_divInt, Rat.divInt_eq_div]
    norm_num
  rw [hmk]
  decide

theorem scenario_points_eval :
    scoreMarket "player_points".toList scenarioPredictor stdFeats [jokicFeatRow]
      = .ok [jokicScored] := by
  simp [scoreMarket, jokicFeatRow, jokicQuote, stdFeats, scenarioPredictor, featVal,
        mkScored, jokicScored, scenario_conf_eval, scenario_decimal_eval, statLabel]
  norm_num
  decide

theorem scenario_rebounds_eval :
    scoreMarket "player_rebounds".toList zeroPredictor stdFeats [jokicFeatRow] = .ok [] := by
  simp [scoreMarket, jokicFeatRow, jokicQuote]

theorem scenario_assists_eval :
    scoreMarket "player_assists".toList zeroPredictor stdFeats [jokicFeatRow] = .ok [] := by
  simp [scoreMarket, jokicFeatRow, jokicQuote]

theorem scenarioRun_eval : scenarioRun = .ok [jokicScored] := by
  rw [scenarioRun, runMain, scenario_add_features_eval, scenario_points_eval,
      scenario_rebounds_eval, scenario_assists_eval]
  simp [rankStage, stableSortAsc, sortFold, insertAsc]

/-- C3 counterexample: on the end-to-end scenario the pipeline's single
output row has edge 3.5 and confidence 85, but its prop label is
"POINTS O 25.5" — not "PTS O 25.5" as the claim states
(`market.split('_')[1].upper()` upper-cases the market-name fragment, it
does not abbreviate "POINTS" to "PTS"). -/
theorem scenario_label_not_pts :
    scenarioRun.map (fun rows => rows.map (fun r => (r.edge, r.conf, r.prop))) =
      .ok [((7/2 : ℚ), (85 : ℤ), "POINTS O 25.5".toList)] ∧
    "POINTS O 25.5".toList ≠ "PTS O 25.5".toList := by
  constructor
  · rw [scenarioRun_eval]
    rfl
  · decide

/-- C3 (amended): the end-to-end scenario produces edge = 3.5,
confidence = 85, and prop label "POINTS O 25.5". -/
theorem scenario_end_to_end :
    scenarioRun = .ok [jokicScored] ∧
    jokicScored.edge = 7/2 ∧ jokicScored.conf = 85 ∧
    jokicScored.prop = "POINTS O 25.5".toList :=
  ⟨scenarioRun_eval, rfl, rfl, rfl⟩

/-- Witness for C5 at the concrete scenario row. -/
theorem score_edge_conf_formula_witness :
    jokicScored.edge = jokicScored.μ - jokicScored.line ∧
    jokicScored.conf = roundHalfEven (clip 0 100 (|jokicScored.edge| * 10 + 50)) ∧
    (10 ≤ |jokicScored.edge| → jokicScored.conf = 100) ∧
    (jokicScored.edge = 0 → jokicScored.conf = 50) :=
  score_edge_conf_formula "player_points".toList scenarioPredictor stdFeats [jokicFeatRow]
    [jokicScored] jokicScored scenario_points_eval (List.mem_singleton.mpr rfl)

/-- Witness for C10 at the concrete scenario row. -/
theorem conf_at_least_fifty_witness :
    50 ≤ jokicScored.conf ∧ jokicScored.conf ≤ 100 :=
  conf_at_least_fifty "player_points".toList scenarioPredictor stdFeats [jokicFeatRow]
    [jokicScored] jokicScored scenario_points_eval (List.mem_singleton.mpr rfl)

/-- A quote for a player absent from both historical tables. -/
def rookieQuote : Quote :=
  { player := "Rookie Guy".toList, line := 10, price := 100,
    game := "A @ B".toList, market := "player_points".toList }

/-- The row `add_features` produces for `rookieQuote` against empty
tables: both averages fall back (season to the line, rolling to the
season value). -/
def rookieRow : FeatRow :=
  { toQuote := rookieQuote, season_pts := 10, rolling5 := 10, home := 1 }

/-- Witness for C6: the rookie's season average equals its line. -/
theorem season_fallback_line_witness :
    rookieRow ∈ add_features [] [] [rookieQuote] ∧
    seasonMean [] (clean_name rookieRow.player) = none ∧
    rookieRow.season_pts = rookieRow.line :=
  ⟨by decide, by decide,
    season_fallback_line [] [] [rookieQuote] rookieRow (by decide) (by decide)⟩

/-- Witness for C7: the rookie's rolling average equals its season
average. -/
theorem rolling_fallback_season_witness :
    rookieRow ∈ add_features [] [] [rookieQuote] ∧
    List.filter (fun p => decide (clean_name p.1 = clean_name rookieRow.player))
      ([] : List (List Char × ℚ)) = [] ∧
    rookieRow.rolling5 = rookieRow.season_pts :=
  ⟨by decide, rfl, rolling_fallback_season [] [] [rookieQuote] rookieRow (by decide) rfl⟩

/-! ### Ranking-stage lemmas -/

theorem mem_insertAsc {x y : Scored} : ∀ {l : List Scored}, y ∈ insertAsc x l → y = x ∨ y ∈ l := by
  intro l
  induction l with
  | nil =>
    intro h
    simp only [insertAsc, List.mem_singleton] at h
    exact Or.inl h
  | cons a t ih =>
    intro h
    simp only [insertAsc] at h
    by_cases hc : a.edge ≤ x.edge
    · rw [if_pos hc] at h
      rcases List.mem_cons.mp h with h1 | h2
      · exact Or.inr (h1 ▸ List.mem_cons_self a t)
      · rcases ih h2 with h3 | h4
        · exact Or.inl h3
        · exact Or.inr (List.mem_cons_of_mem a h4)
    · rw [if_neg hc] at h
      rcases List.mem_cons.mp h with h1 | h2
      · exact Or.inl h1
      · exact Or.inr h2

theorem insertAsc_sorted {x : Scored} : ∀ {l : List Scored},
    List.Sorted (fun a b : Scored => a.edge ≤ b.edge) l →
    List.Sorted (fun a b : Scored => a.edge ≤ b.edge) (insertAsc x l) := by
  intro l
  induction l with
  | nil => intro _; simp [insertAsc]
  | cons a t ih =>
    intro h
    rw [List.sorted_cons] at h
    simp only [insertAsc]
    by_cases hc : a.edge ≤ x.edge
    · rw [if_pos hc, List.sorted_cons]
      refine ⟨fun b hb => ?_, ih h.2⟩
      rcases mem_insertAsc hb with h1 | h2
      · exact h1 ▸ hc
      · exact h.1 b h2
    · rw [if_neg hc, List.sorted_cons]
      have hx : x.edge ≤ a.edge := le_of_lt (lt_of_not_le hc)
      refine ⟨fun b hb => ?_, List.sorted_cons.mpr h⟩
      rcases List.mem_cons.mp hb with h1 | h2
      · exact h1 ▸ hx
      · exact le_trans hx (h.1 b h2)

theorem insertAsc_perm (x : Scored) : ∀ l : List Scored, (insertAsc x l).Perm (x :: l) := by
  intro l
  induction l with
  | nil => simp [insertAsc]
  | cons a t ih =>
    simp only [insertAsc]
    by_cases hc : a.edge ≤ x.edge
    · rw [if_pos hc]
      exact (ih.cons a).trans (List.Perm.swap x a t)
    · rw [if_neg hc]

theorem sortFold_perm : ∀ (l acc : List Scored), (sortFold acc l).Perm (acc ++ l) := by
  intro l
  induction l with
  | nil => intro acc; simp [sortFold]
  | cons x xs ih =>
    intro acc
    simp only [sortFold]
    refine ((ih (insertAsc x acc)).trans ?_)
    refine (List.Perm.append_right xs (insertAsc_perm x acc)).trans ?_
    exact List.perm_middle.symm

theorem sortFold_sorted : ∀ (l acc : List Scored),
    List.Sorted (fun a b : Scored => a.edge ≤ b.edge) acc →
    List.Sorted (fun a b : Scored => a.edge ≤ b.edge) (sortFold acc l) := by
  intro l
  induction l with
  | nil => intro acc h; exact h
  | cons x xs ih => intro acc h; exact ih _ (insertAsc_sorted h)

theorem stableSortAsc_perm (l : List Scored) : (stableSortAsc l).Perm l := by
  have := sortFold_perm l []
  simpa [stableSortAsc] using this

theorem stableSortAsc_sorted (l : List Scored) :
    List.Sorted (fun a b : Scored => a.edge ≤ b.edge) (stableSortAsc l) :=
  sortFold_sorted l [] (by simp)

/-- C1 (amended): the ranking stage performs no deduplication — whenever
the input fits inside the fixed truncation width 20, its output is a
permutation of the input, so rows that agree on (player, line, game) all
survive. -/
theorem rank_no_dedup (rows : List Scored) (h : rows.length ≤ 20) :
    (rankStage rows).Perm rows := by
  rw [rankStage]
  have hp : (stableSortAsc rows).Perm rows := stableSortAsc_perm rows
  have hlen : (stableSortAsc rows).reverse.length ≤ 20 := by
    rw [List.length_reverse, hp.length_eq]
    exact h
  rw [List.take_of_length_le hlen]
  exact (List.reverse_perm _).trans hp

/-- Two scored rows agreeing on (player, line, game) with different
prices (two bookmaker quotes for the same prop). -/
def dupRowA : Scored :=
  { toFeatRow :=
      { toQuote :=
          { player := "A Player".toList, line := 25, price := 100,
            game := "X @ Y".toList, market := "player_points".toList },
        season_pts := 25, rolling5 := 25, home := 1 },
    μ := 26, edge := 1, conf := 60, prop := "POINTS O 25.0".toList }

def dupRowB : Scored :=
  { toFeatRow :=
      { toQuote :=
          { player := "A Player".toList, line := 25, price := 105,
            game := "X @ Y".toList, market := "player_points".toList },
        season_pts := 25, rolling5 := 25, home := 1 },
    μ := 27, edge := 2, conf := 70, prop := "POINTS O 25.0".toList }

/-- C1 counterexample: two scored rows identical in (player, line, game)
but different in price BOTH appear in the ranking output — the stage
performs no deduplication, so it is false that exactly one row with that
key survives. -/
theorem rank_duplicate_key_both_survive :
    rankStage [dupRowA, dupRowB] = [dupRowB, dupRowA] ∧
    dupRowA.player = dupRowB.player ∧ dupRowA.line = dupRowB.line ∧
    dupRowA.game = dupRowB.game ∧ dupRowA.price ≠ dupRowB.price := by
  refine ⟨?_, by decide, by decide, by decide, by decide⟩
  decide

/-- Witness for C1 (amended) at the duplicate pair. -/
theorem rank_no_dedup_witness :
    ([dupRowA, dupRowB] : List Scored).length ≤ 20 ∧
    (rankStage [dupRowA, dupRowB]).Perm [dupRowA, dupRowB] :=
  ⟨by decide, rank_no_dedup [dupRowA, dupRowB] (by decide)⟩

/-- Four scored rows with edges [5, -2, 8, 8]; the last two are tied. -/
def c4r0 : Scored :=
  { toFeatRow :=
      { toQuote :=
          { player := "P Zero".toList, line := 10, price := 100,
            game := "X @ Y".toList, market := "player_points".toList },
        season_pts := 10, rolling5 := 10, home := 1 },
    μ := 15, edge := 5, conf := 100, prop := "POINTS O 10.0".toList }

def c4r1 : Scored :=
  { toFeatRow :=
      { toQuote :=
          { player := "P One".toList, line := 10, price := 100,
            game := "X @ Y".toList, market := "player_points".toList },
        season_pts := 10, rolling5 := 10, home := 1 },
    μ := 8, edge := -2, conf := 70, prop := "POINTS O 10.0".toList }

def c4r2 : Scored :=
  { toFeatRow :=
      { toQuote :=
          { player := "P Two".toList, line := 10, price := 100,
            game := "X @ Y".toList, market := "player_points".toList },
        season_pts := 10, rolling5 := 10, home := 1 },
    μ := 18, edge := 8, conf := 100, prop := "POINTS O 10.0".toList }

def c4r3 : Scored :=
  { toFeatRow :=
      { toQuote :=
          { player := "P Three".toList, line := 10, price := 100,
            game := "X @ Y".toList, market := "player_points".toList },
        season_pts := 10, rolling5 := 10, home := 1 },
    μ := 18, edge := 8, conf := 100, prop := "POINTS O 10.0".toList }

/-- C4 counterexample: on edges [5, -2, 8, 8] the first three rows of the
ranking output are the two tied rows in REVERSED original order followed
by the edge-5 row — pandas' descending sort reverses its ascending
argsort, so ties do NOT keep their original relative order. -/
theorem rank_tie_reversed :
    (rankStage [c4r0, c4r1, c4r2, c4r3]).take 3 = [c4r3, c4r2, c4r0] ∧
    (rankStage [c4r0, c4r1, c4r2, c4r3]).take 3 ≠ [c4r2, c4r3, c4r0] ∧
    c4r2.edge = c4r3.edge ∧ c4r2 ≠ c4r3 := by
  refine ⟨?_, ?_, by decide, by decide⟩ <;> decide

/-- C4 (amended): the ranking stage sorts by edge descending (ties end up
in reversed original relative order, because the stage reverses a stable
ascending sort) and truncates to a fixed 20 rows; on edges [5, -2, 8, 8]
the top three are the tied pair (reversed) then the edge-5 row. -/
theorem rank_sorted_desc :
    (∀ rows : List Scored,
      List.Sorted (fun a b : Scored => b.edge ≤ a.edge) (rankStage rows)) ∧
    (∀ rows : List Scored, rankStage rows = ((stableSortAsc rows).reverse).take 20) ∧
    (rankStage [c4r0, c4r1, c4r2, c4r3]).take 3 = [c4r3, c4r2, c4r0] := by
  refine ⟨fun rows => ?_, fun rows => rfl, by decide⟩
  rw [rankStage]
  have hs := stableSortAsc_sorted rows
  have hrev : List.Sorted (fun a b : Scored => b.edge ≤ a.edge) (stableSortAsc rows).reverse := by
    rw [List.Sorted, List.pairwise_reverse]
    exact hs
  exact hrev.sublist (List.take_sublist _ _)

/-! ### Predictor failure -/

/-- A predictor that raises on any input (e.g. rejects the feature-vector
shape). -/
def failPredictor : Predictor := fun _ => .error ()

/-- A rebounds quote for a player absent from the historical tables. -/
def rebQuote : Quote :=
  { player := "Some Center".toList, line := 5, price := 100,
    game := "A @ B".toList, market := "player_rebounds".toList }

/-- The enriched row for `rebQuote` against empty tables. -/
def rebRow : FeatRow :=
  { toQuote := rebQuote, season_pts := 5, rolling5 := 5, home := 1 }

/-- What scoring the rebounds market alone with `zeroPredictor` yields
for `rebRow`. -/
def rebScored : Scored :=
  { toFeatRow := rebRow, μ := 0, edge := -5, conf := 100,
    prop := "REBOUNDS O 5.0".toList }

theorem reb_conf_eval : confOf ((0 : ℚ) - 5) = 100 := by
  have h : clip 0 100 (|(0 : ℚ) - 5| * 10 + 50) = 100 := by
    rw [clip, abs_of_neg (by norm_num)]
    norm_num
  rw [confOf, h]
  have h100 : ((100 : ℤ) : ℚ) = (100 : ℚ) := by norm_num
  rw [← h100, roundHalfEven_intCast]

theorem reb_decimal_eval : decimalStr (5 : ℚ) = "5.0".toList := by decide

/-- Scoring the rebounds market of the two-quote frame succeeds. -/
theorem reb_scoreMarket_eval :
    scoreMarket "player_rebounds".toList zeroPredictor stdFeats
      (add_features [] [] [rookieQuote, rebQuote]) = .ok [rebScored] := by
  have hadd : add_features [] [] [rookieQuote, rebQuote] = [rookieRow, rebRow] := by decide
  rw [hadd]
  simp [scoreMarket, rebRow, rebQuote, rookieRow, rookieQuote, stdFeats, zeroPredictor,
        featVal, mkScored, rebScored, reb_conf_eval, reb_decimal_eval, statLabel]
  refine ⟨?_, by decide⟩
  have h5 : (-5 : ℚ) = 0 - 5 := by norm_num
  rw [h5]
  exact reb_conf_eval

/-- C2 counterexample: with a frame holding one points quote and one
rebounds quote, a failing points predictor and a succeeding rebounds
predictor, the whole run returns an error — the rebounds market, though
scorable on its own (second conjunct), is NOT scored and ranked, so the
failure is not isolated to the failing market. -/
theorem predictor_failure_not_isolated :
    runMain [] [] failPredictor zeroPredictor zeroPredictor stdFeats stdFeats stdFeats
      [rookieQuote, rebQuote] = .error () ∧
    scoreMarket "player_rebounds".toList zeroPredictor stdFeats
      (add_features [] [] [rookieQuote, rebQuote]) = .ok [rebScored] :=
  ⟨rfl, reb_scoreMarket_eval⟩

/-- A predictor error on a nonempty market slice makes that market's
`scoreMarket` call fail (the model of the unhandled exception from
`model.predict` on src/refresh.py line 184). -/
theorem scoreMarket_fails (mk : List Char) (p : Predictor) (f : List Feat)
    (df : List FeatRow)
    (hne : df.filter (fun r => decide (r.market = mk)) ≠ [])
    (hfail : p ((df.filter (fun r => decide (r.market = mk))).map
      (fun r => f.map (featVal r))) = .error ()) :
    scoreMarket mk p f df = .error () := by
  rw [scoreMarket]
  rw [if_neg hne, hfail]

/-- If any of the three per-market `scoreMarket` calls of `main` fails,
the whole run fails: the loop (src/refresh.py lines 176-189) has no
handler, so whichever market raises first aborts `main` before
`pd.concat`, and a raise in a later market is only reached when the
earlier markets succeeded — either way nothing is output. -/
theorem runMain_error_of_scoreMarket_error (logs last5 : List (List Char × ℚ))
    (pPts pReb pAst : Predictor) (fPts fReb fAst : List Feat) (quotes : List Quote)
    (h : scoreMarket "player_points".toList pPts fPts (add_features logs last5 quotes)
          = .error () ∨
         scoreMarket "player_rebounds".toList pReb fReb (add_features logs last5 quotes)
          = .error () ∨
         scoreMarket "player_assists".toList pAst fAst (add_features logs last5 quotes)
          = .error ()) :
    runMain logs last5 pPts pReb pAst fPts fReb fAst quotes = .error () := by
  cases hp : scoreMarket "player_points".toList pPts fPts (add_features logs last5 quotes) with
  | error e => cases e; rw [runMain, hp]
  | ok s1 =>
    cases hr : scoreMarket "player_rebounds".toList pReb fReb
        (add_features logs last5 quotes) with
    | error e => cases e; rw [runMain, hp, hr]
    | ok s2 =>
      cases ha : scoreMarket "player_assists".toList pAst fAst
          (add_features logs last5 quotes) with
      | error e => cases e; rw [runMain, hp, hr, ha]
      | ok s3 =>
        rcases h with h | h | h
        · rw [hp] at h; exact absurd h (by simp)
        · rw [hr] at h; exact absurd h (by simp)
        · rw [ha] at h; exact absurd h (by simp)

/-- C2 (amended): a predictor failure on a nonempty market slice — for
ANY of the three markets of the loop — aborts the entire run: `main` has
no handler, so the exception propagates, the core neither retries nor
substitutes a default prediction, and no market's rows (not even those
of healthy markets) reach the output. -/
theorem predictor_failure_propagates (logs last5 : List (List Char × ℚ))
    (pPts pReb pAst : Predictor) (fPts fReb fAst : List Feat) (quotes : List Quote) :
    ((add_features logs last5 quotes).filter
        (fun r => decide (r.market = "player_points".toList)) ≠ [] →
      pPts (((add_features logs last5 quotes).filter
          (fun r => decide (r.market = "player_points".toList))).map
            (fun r => fPts.map (featVal r))) = .error () →
      runMain logs last5 pPts pReb pAst fPts fReb fAst quotes = .error ()) ∧
    ((add_features logs last5 quotes).filter
        (fun r => decide (r.market = "player_rebounds".toList)) ≠ [] →
      pReb (((add_features logs last5 quotes).filter
          (fun r => decide (r.market = "player_rebounds".toList))).map
            (fun r => fReb.map (featVal r))) = .error () →
      runMain logs last5 pPts pReb pAst fPts fReb fAst quotes = .error ()) ∧
    ((add_features logs last5 quotes).filter
        (fun r => decide (r.market = "player_assists".toList)) ≠ [] →
      pAst (((add_features logs last5 quotes).filter
          (fun r => decide (r.market = "player_assists".toList))).map
            (fun r => fAst.map (featVal r))) = .error () →
      runMain logs last5 pPts pReb pAst fPts fReb fAst quotes = .error ()) := by
  refine ⟨fun hne hfail => ?_, fun hne hfail => ?_, fun hne hfail => ?_⟩
  · exact runMain_error_of_scoreMarket_error logs last5 pPts pReb pAst fPts fReb fAst quotes
      (Or.inl (scoreMarket_fails _ pPts fPts _ hne hfail))
  · exact runMain_error_of_scoreMarket_error logs last5 pPts pReb pAst fPts fReb fAst quotes
      (Or.inr (Or.inl (scoreMarket_fails _ pReb fReb _ hne hfail)))
  · exact runMain_error_of_scoreMarket_error logs last5 pPts pReb pAst fPts fReb fAst quotes
      (Or.inr (Or.inr (scoreMarket_fails _ pAst fAst _ hne hfail)))

/-- An assists quote for a player absent from the historical tables. -/
def astQuote : Quote :=
  { player := "Some Guard".toList, line := 4, price := 100,
    game := "A @ B".toList, market := "player_assists".toList }

/-- Witness for C2 (amended) at a concrete three-quote frame, exercising
all three conjuncts: a failing points, rebounds or assists predictor
each aborts the run. -/
theorem predictor_failure_propagates_witness :
    ((add_features [] [] [rookieQuote, rebQuote, astQuote]).filter
        (fun r => decide (r.market = "player_points".toList)) ≠ []) ∧
    ((add_features [] [] [rookieQuote, rebQuote, astQuote]).filter
        (fun r => decide (r.market = "player_rebounds".toList)) ≠ []) ∧
    ((add_features [] [] [rookieQuote, rebQuote, astQuote]).filter
        (fun r => decide (r.market = "player_assists".toList)) ≠ []) ∧
    runMain [] [] failPredictor zeroPredictor zeroPredictor stdFeats stdFeats stdFeats
      [rookieQuote, rebQuote, astQuote] = .error () ∧
    runMain [] [] zeroPredictor failPredictor zeroPredictor stdFeats stdFeats stdFeats
      [rookieQuote, rebQuote, astQuote] = .error () ∧
    runMain [] [] zeroPredictor zeroPredictor failPredictor stdFeats stdFeats stdFeats
      [rookieQuote, rebQuote, astQuote] = .error () :=
  ⟨by decide, by decide, by decide,
    (predictor_failure_propagates [] [] failPredictor zeroPredictor zeroPredictor
      stdFeats stdFeats stdFeats [rookieQuote, rebQuote, astQuote]).1 (by decide) rfl,
    (predictor_failure_propagates [] [] zeroPredictor failPredictor zeroPredictor
      stdFeats stdFeats stdFeats [rookieQuote, rebQuote, astQuote]).2.1 (by decide) rfl,
    (predictor_failure_propagates [] [] zeroPredictor zeroPredictor failPredictor
      stdFeats stdFeats stdFeats [rookieQuote, rebQuote, astQuote]).2.2 (by decide) rfl⟩
